import Mathlib

/-!
Verification of the MergeWiki repository core (src/parser.py, src/analyzer.py,
src/main.py, src/models.py) against its natural-language specification.

The Python code is shallowly embedded: every definition below is translated
from a concrete place in the source, named after the Python function it
embeds.  Python strings are Lean `String`s; all string primitives the code
uses (startswith, strip, slicing, splitlines, join, lower, substring test)
are re-implemented on `List Char` so that they are executable by the kernel.
Python `dict` values (which the code iterates in insertion order) are
association lists `List (key × value)`; `dict.setdefault(k, []).append(v)`
and `dict.get(k, default)` are modelled directly on them.  Python `None` in
an `Optional` field is `Option.none`.
-/

/-! ## Python string primitives -/

/-- Python `pre.startswith(p)` test, as a prefix check on the character lists:
`listPrefixOf p s` is true when `p` is a prefix of `s`. -/
def listPrefixOf : List Char → List Char → Bool
  | [], _ => true
  | _ :: _, [] => false
  | p :: ps, c :: cs => p = c && listPrefixOf ps cs

/-- Python `s.startswith(pre)`. -/
def pyStartsWith (s pre : String) : Bool := listPrefixOf pre.toList s.toList

/-- Is `pat` a contiguous substring of the list?  Used for Python `pat in s`. -/
def listSubstrAt (pat : List Char) : List Char → Bool
  | [] => pat.isEmpty
  | c :: rest => listPrefixOf pat (c :: rest) || listSubstrAt pat rest

/-- Python `pat in s` (substring containment). -/
def pyIn (pat s : String) : Bool := listSubstrAt pat.toList s.toList

/-- Whitespace characters recognised by Python `str.strip()` (the ASCII ones;
the code only ever strips diff header fragments and model answers). -/
def isPyWhitespace (c : Char) : Bool :=
  c = ' ' || c = '\t' || c = '\n' || c = '\r' || c = '\x0b' || c = '\x0c'

/-- Python `s.strip()`. -/
def pyStrip (s : String) : String :=
  String.mk (((s.toList.dropWhile isPyWhitespace).reverse.dropWhile isPyWhitespace).reverse)

/-- Python slicing `s[n:]` (by code points, as Python indexes strings). -/
def pySliceFrom (s : String) (n : Nat) : String := String.mk (s.toList.drop n)

/-- Python `s[0]` for a nonempty string (the code always tests emptiness first). -/
def pyFirstChar (s : String) : Char := s.toList.headD (Char.ofNat 0)

/-- Python `sep.join(parts)`. -/
def pyJoin (sep : String) : List String → String
  | [] => ""
  | x :: xs => xs.foldl (fun acc y => acc ++ sep ++ y) x

/-- Python `s.lower()` (ASCII case folding; the code only compares against
the ASCII literal "mixed_code"). -/
def pyLower (s : String) : String := String.mk (s.toList.map Char.toLower)

/-- Splitting a character list at newline characters, keeping empty pieces;
helper for Python `str.splitlines()` and `str.split("\n")`. -/
def splitNlAux : List Char → List Char → List String
  | [], acc => [String.mk acc.reverse]
  | c :: cs, acc =>
      if c = '\n' then String.mk acc.reverse :: splitNlAux cs [] else splitNlAux cs (c :: acc)

/-- Python `s.splitlines()` (for newline-terminated text): split at `\n` and,
unlike `split`, do not produce a final empty piece for a trailing newline. -/
def pysplitlines (s : String) : List String :=
  if s = "" then []
  else
    let parts := splitNlAux s.toList []
    if parts.getLast? = some "" then parts.dropLast else parts

/-! ## Data model (src/models.py) -/

/-- models.py `Location`: a two-field line range. -/
structure Location where
  start_line : Int
  end_line : Int
deriving DecidableEq

/-- models.py `DiffHunk` as the conflict-block builder consumes it
(src/parser.py `build_diff_blocks` and `_find_matching_hunk`): integer line
fields, as declared in models.py. -/
structure DiffHunk where
  file_path : String
  start_line : Int
  end_line : Int
  content : String
deriving DecidableEq

/-- A `DiffHunk` as actually produced by `DiffParser._parse_diff_lines`: the
parser's running `hunk_start` / `hunk_end` variables are initialised to
Python `None` and may still be `None` (or stale) when a hunk is flushed, so
the line fields are `Option Nat` here (the regex groups are decimal digit
runs, hence natural numbers). -/
structure PHunk where
  file_path : String
  start_line : Option Nat
  end_line : Option Nat
  content : String
deriving DecidableEq

/-- models.py `DiffBlock`, together with the attributes injected dynamically
via `setattr` (`diffA_raw`, `diffB_raw` in parser.py, `modification_type` in
analyzer.py).  Every field is `Optional` with default `None` in the source. -/
structure DiffBlock where
  file_path_branchA : Option String := none
  file_path_branchB : Option String := none
  location_branchA : Option Location := none
  location_branchB : Option Location := none
  branchA_content : Option String := none
  branchB_content : Option String := none
  branchA_reason : Option String := none
  branchB_reason : Option String := none
  branchA_influence : Option String := none
  branchB_influence : Option String := none
  diff_ab_content : Option String := none
  content : Option String := none
  id : Option Int := none
  resolution_suggestion : Option String := none
  resolution_suggestion_reason : Option String := none
  mixed_code : Option String := none
  diffA_raw : Option String := none
  diffB_raw : Option String := none
  modification_type : Option String := none
deriving DecidableEq

/-- models.py `FileReport`. -/
structure FileReport where
  file_path : String
  diff_blocks : List DiffBlock
deriving DecidableEq

/-! ## Unified-diff reader (src/parser.py `DiffParser._parse_diff_lines`) -/

/-- One literal character of the regex `DiffParser.HUNK_PATTERN`:
consume `p` as a prefix, returning the rest, or fail. -/
def matchLit : List Char → List Char → Option (List Char)
  | [], cs => some cs
  | _ :: _, [] => none
  | p :: ps, c :: cs => if c = p then matchLit ps cs else none

/-- Numeric value of a digit run, as Python `int()`. -/
def digitsToNat (ds : List Char) : Nat :=
  ds.foldl (fun n c => n * 10 + (c.toNat - 48)) 0

/-- Greedy `\d+`: the maximal leading digit run, or failure if there is none. -/
def parseDigits (cs : List Char) : Option (Nat × List Char) :=
  let ds := cs.takeWhile Char.isDigit
  if ds = [] then none else some (digitsToNat ds, cs.dropWhile Char.isDigit)

/-- The regex fragment `(\d+)(?:,(\d+))?`: a number and an optional
`,number`.  If a comma follows but no digit follows the comma, the optional
group fails and matching resumes just after the first number, exactly as the
backtracking regex engine behaves. -/
def parseNumPair (cs : List Char) : Option (Nat × Option Nat × List Char) :=
  match parseDigits cs with
  | none => none
  | some (n, rest) =>
    match rest with
    | ',' :: rest2 =>
        match parseDigits rest2 with
        | some (m, rest3) => some (n, some m, rest3)
        | none => some (n, none, ',' :: rest2)
    | _ => some (n, none, rest)

/-- `re.match` of `HUNK_PATTERN = @@ -(\d+)(?:,(\d+))? \+(\d+)(?:,(\d+))? @@`
against the start of a character list.  Returns the four captured groups
`(a, b, s, l)`; text after the final `@@` is unconstrained (the regex is not
anchored at the end).  No element of the pattern matches a newline, so a
match can never extend across a line terminator. -/
def parseHunkHeaderList (cs : List Char) : Option (Nat × Option Nat × Nat × Option Nat) :=
  match matchLit "@@ -".toList cs with
  | none => none
  | some cs1 =>
    match parseNumPair cs1 with
    | none => none
    | some (a, b, cs2) =>
      match matchLit " +".toList cs2 with
      | none => none
      | some cs3 =>
        match parseNumPair cs3 with
        | none => none
        | some (s, l, cs4) =>
          match matchLit " @@".toList cs4 with
          | none => none
          | some _ => some (a, b, s, l)

/-- `DiffParser.HUNK_PATTERN.match(line)` on a Lean string. -/
def parseHunkHeader (line : String) : Option (Nat × Option Nat × Nat × Option Nat) :=
  parseHunkHeaderList line.toList

/-- Python truthiness of the parser's `current_file` variable
(`Optional[str]`): `None` and the empty string are falsy. -/
def pyTruthyStr : Option String → Bool
  | none => false
  | some s => !(s = "")

/-- The mutable state of `_parse_diff_lines`: the accumulated
`{file: [DiffHunk]}` dict (insertion-ordered), `current_file`,
`current_hunk_lines`, and the running `hunk_start` / `hunk_end` (initially
Python `None`). -/
structure ParseState where
  file_hunks : List (String × List PHunk)
  current_file : Option String
  current_hunk_lines : List String
  hunk_start : Option Nat
  hunk_end : Option Nat
deriving DecidableEq

/-- The initial state of one `_parse_diff_lines` call. -/
def initState : ParseState := ⟨[], none, [], none, none⟩

/-- Python `file_hunks.setdefault(key, []).append(h)` on an insertion-ordered
dict modelled as an association list. -/
def appendHunk : List (String × List PHunk) → String → PHunk → List (String × List PHunk)
  | [], key, h => [(key, [h])]
  | (k, hs) :: rest, key, h =>
      if k = key then (k, hs ++ [h]) :: rest else (k, hs) :: appendHunk rest key h

/-- The flush idiom of `_parse_diff_lines` (lines 32-35, 46-49 and 58-61 of
parser.py): `if current_file and current_hunk_lines:` append
`DiffHunk(current_file, hunk_start, hunk_end, "".join(current_hunk_lines))`
to the dict.  `current_file` truthiness follows Python (empty string falsy). -/
def flushHunks (st : ParseState) : List (String × List PHunk) :=
  match st.current_file with
  | none => st.file_hunks
  | some f =>
      if f = "" then st.file_hunks
      else if st.current_hunk_lines = [] then st.file_hunks
      else appendHunk st.file_hunks f ⟨f, st.hunk_start, st.hunk_end, pyJoin "" st.current_hunk_lines⟩

/-- One iteration of the `for line in lines` loop of `_parse_diff_lines`:
`diff --git` lines flush and reset the current file; `+++ ` lines set the
current file to `line[4:].strip()` (keeping the accumulated buffer); a line
matching `HUNK_PATTERN` flushes, records the new target-side range
(`hunk_start = int(group 3)`, `hunk_end = hunk_start + (int(group 4) if
present else 1)`) and starts a new buffer holding the header line; any other
line is appended to the buffer when a current file is set (truthy). -/
def parseStep (st : ParseState) (line : String) : ParseState :=
  if pyStartsWith line "diff --git" then
    { st with file_hunks := flushHunks st, current_file := none, current_hunk_lines := [] }
  else if pyStartsWith line "+++ " then
    { st with current_file := some (pyStrip (pySliceFrom line 4)) }
  else
    match parseHunkHeader line with
    | some (_, _, s, l) =>
        { st with file_hunks := flushHunks st,
                  hunk_start := some s,
                  hunk_end := some (s + l.getD 1),
                  current_hunk_lines := [line] }
    | none =>
        if pyTruthyStr st.current_file then
          { st with current_hunk_lines := st.current_hunk_lines ++ [line] }
        else st

/-- `DiffParser._parse_diff_lines(lines)`: fold the loop body over the input
lines and flush the final in-progress hunk. -/
def parse_diff_lines (lines : List String) : List (String × List PHunk) :=
  flushHunks (lines.foldl parseStep initState)

example : parse_diff_lines ["+++ f\n", "@@ -1,2 +10,3 @@\n", " x\n"] =
    [("f", [⟨"f", some 10, some 13, "@@ -1,2 +10,3 @@\n x\n"⟩])] := by decide

example : parse_diff_lines ["+++ f\n", "xyz\n"] =
    [("f", [⟨"f", none, none, "xyz\n"⟩])] := by decide

example : parse_diff_lines ["+++ f\n"] = [] := by decide

example : parseHunkHeader "@@ -1 +5 @@\n" = some (1, none, 5, none) := by decide

example : parseHunkHeader "@@ -1, +5 @@\n" = none := by decide

/-! ## Conflict block builder (src/parser.py `build_diff_blocks`) -/

/-- Python `diffX.get(file_path, [])` on the hunk mapping. -/
def dictGetHunks (d : List (String × List DiffHunk)) (key : String) : List DiffHunk :=
  match d.find? (fun p => p.1 = key) with
  | some p => p.2
  | none => []

/-- `DiffParser._find_matching_hunk(hunks, target)`: the first hunk in
sequence order whose closed range overlaps the target under
`h.start_line <= target.end_line and target.start_line <= h.end_line`,
or `None` when no hunk overlaps. -/
def find_matching_hunk : List DiffHunk → DiffHunk → Option DiffHunk
  | [], _ => none
  | h :: rest, target =>
      if h.start_line ≤ target.end_line ∧ target.start_line ≤ h.end_line then some h
      else find_matching_hunk rest target

/-- The body of the inner loop of `build_diff_blocks` (parser.py lines
104-124): the `DiffBlock(...)` constructor call for one A-B hunk, plus the
two `setattr` lines injecting `diffA_raw` / `diffB_raw`.  Fields not named in
the call keep their models.py default `None`. -/
def mkBlock (matchA matchB : Option DiffHunk) (file_path : String) (hAB : DiffHunk)
    (bid : Int) : DiffBlock :=
  { id := some bid,
    file_path_branchA := some file_path,
    file_path_branchB := some file_path,
    location_branchA := some (match matchA with
      | some h => ⟨h.start_line, h.end_line⟩
      | none => ⟨0, 0⟩),
    location_branchB := some (match matchB with
      | some h => ⟨h.start_line, h.end_line⟩
      | none => ⟨0, 0⟩),
    branchA_content := match matchA with
      | some h => some h.content
      | none => none,
    branchB_content := match matchB with
      | some h => some h.content
      | none => none,
    diff_ab_content := some hAB.content,
    content := some hAB.content,
    diffA_raw := some (match matchA with
      | some h => h.content
      | none => ""),
    diffB_raw := some (match matchB with
      | some h => h.content
      | none => "") }

/-- The inner `for hAB in ab_hunks` loop of `build_diff_blocks` for one file:
correlate each A-B hunk against the file's diffA and diffB hunks, build one
block per hunk, and thread the global `block_id` counter (incremented once
per block); returns the block list and the counter value after the file. -/
def buildFileBlocks (dA dB : List (String × List DiffHunk)) (file_path : String) :
    List DiffHunk → Int → List DiffBlock × Int
  | [], bid => ([], bid)
  | hAB :: rest, bid =>
      let matchA := find_matching_hunk (dictGetHunks dA file_path) hAB
      let matchB := find_matching_hunk (dictGetHunks dB file_path) hAB
      let res := buildFileBlocks dA dB file_path rest (bid + 1)
      (mkBlock matchA matchB file_path hAB bid :: res.1, res.2)

/-- The outer `for file_path, ab_hunks in diffAB.items()` loop of
`build_diff_blocks`: one `FileReport` is appended per file of `diffAB`
(unconditionally, even when `ab_hunks` is empty), and the `block_id` counter
is carried from file to file. -/
def build_diff_blocks_aux (dA dB : List (String × List DiffHunk)) :
    List (String × List DiffHunk) → Int → List FileReport
  | [], _ => []
  | (f, hs) :: rest, bid =>
      let res := buildFileBlocks dA dB f hs bid
      ⟨f, res.1⟩ :: build_diff_blocks_aux dA dB rest res.2

/-- `DiffParser.build_diff_blocks(diffA, diffB, diffAB)`: `block_id` starts
at 1 and is shared across all files of the run. -/
def build_diff_blocks (dA dB dAB : List (String × List DiffHunk)) : List FileReport :=
  build_diff_blocks_aux dA dB dAB 1

/-! ## Branch content reconstruction (src/analyzer.py) -/

/-- The `for line in diff_text.splitlines()` loop of
`LLMAnalyzer._get_original_code_of_branch` (analyzer.py lines 282-301):
skip falsy (empty) lines and lines starting with `@@`; otherwise look at
`line[0]` and keep `line[1:]` when the marker belongs to the requested side
(`-` or space for target "A", `+` or space for target "B"; the "A" test
comes first in this function). -/
def branch_code_lines (target : String) : List String → List String
  | [] => []
  | line :: rest =>
      if line = "" then branch_code_lines target rest
      else if pyStartsWith line "@@" then branch_code_lines target rest
      else
        let marker := pyFirstChar line
        let body := pySliceFrom line 1
        if target = "A" then
          if marker = '-' || marker = ' ' then body :: branch_code_lines target rest
          else branch_code_lines target rest
        else if target = "B" then
          if marker = '+' || marker = ' ' then body :: branch_code_lines target rest
          else branch_code_lines target rest
        else branch_code_lines target rest

/-- `LLMAnalyzer._get_original_code_of_branch(diff_block, target)`.  The
first argument is `diff_block.content` (an `Optional[str]`); Python
`if not diff_text: return ""` makes both `None` and `""` yield `""`.
The kept lines are rejoined with `"\n".join(raw_lines)`. -/
def get_original_code_of_branch (diff_text : Option String) (target : String) : String :=
  match diff_text with
  | none => ""
  | some t =>
      if t = "" then "" else pyJoin "\n" (branch_code_lines target (pysplitlines t))

/-- The `for line in diff_text.splitlines()` loop of the nested helper
`extract_raw_code_from_diff` inside `LLMAnalyzer._generate_mixed_code`
(analyzer.py lines 318-337); identical filtering, but this copy tests
target "B" before target "A". -/
def extract_code_lines (target : String) : List String → List String
  | [] => []
  | line :: rest =>
      if line = "" then extract_code_lines target rest
      else if pyStartsWith line "@@" then extract_code_lines target rest
      else
        let marker := pyFirstChar line
        let body := pySliceFrom line 1
        if target = "B" then
          if marker = '+' || marker = ' ' then body :: extract_code_lines target rest
          else extract_code_lines target rest
        else if target = "A" then
          if marker = '-' || marker = ' ' then body :: extract_code_lines target rest
          else extract_code_lines target rest
        else extract_code_lines target rest

/-- `extract_raw_code_from_diff(diff_text, target)` of
`LLMAnalyzer._generate_mixed_code`; the argument passed by the caller is
`diff_block.content`. -/
def extract_raw_code_from_diff (diff_text : Option String) (target : String) : String :=
  match diff_text with
  | none => ""
  | some t =>
      if t = "" then "" else pyJoin "\n" (extract_code_lines target (pysplitlines t))

/-- Reconstruction as the specification words it (spec section 4.4, used to
check the code against the spec): split the hunk text into lines, drop empty
lines and lines starting with `@@`, keep exactly the lines whose first
character is the side's own marker (`-` for side A, `+` for side B) or a
space, strip that marker character, and rejoin with newlines in order. -/
def reconstruct_spec (sideA : Bool) (text : String) : String :=
  pyJoin "\n"
    (((pysplitlines text).filter (fun l =>
        !(l = "") && !(pyStartsWith l "@@") &&
          (pyFirstChar l = (if sideA then '-' else '+') || pyFirstChar l = ' '))).map
      (fun l => pySliceFrom l 1))

/-! ## Analysis stage (src/analyzer.py `analyze_diff_block`, src/main.py) -/

/-- Python `analysis_result.get(key, default)` on the dict returned by
`LLMAnalyzer._parse_llm_response` (modelled as an association list;
`_parse_llm_response` never sets a "mixed_code" key, so that lookup always
falls back to its default). -/
def dictGetStr (d : List (String × String)) (key dflt : String) : String :=
  match d.find? (fun p => p.1 = key) with
  | some p => p.2
  | none => dflt

/-- The strategy branch of `_generate_mixed_code` (analyzer.py lines
339-357): pick the style-reference branch from the (stripped) resolution
suggestion; default is "B". -/
def style_target_branch (suggestion : String) : String :=
  if pyIn "保留 branchA 代码" suggestion then "A"
  else if pyIn "保留 branchB 代码" suggestion then "B"
  else if pyIn "branchA/branchB 融合" suggestion then "A"
  else "B"

/-- The deterministic reference-code computation of
`LLMAnalyzer._generate_mixed_code` (analyzer.py lines 339-366), up to the
point where `reference_code` is handed to the style detector and the second
model call: extract the chosen branch's raw code from
`diff_block.content`, and if the result strips to empty fall back to the
other branch.  Arguments are `diff_block.resolution_suggestion` and
`diff_block.content`. -/
def generate_mixed_code_reference (suggestion0 : String) (raw_diff : Option String) : String :=
  let suggestion := pyStrip suggestion0
  let target := style_target_branch suggestion
  let ref := extract_raw_code_from_diff raw_diff target
  if pyStrip ref = "" then
    extract_raw_code_from_diff raw_diff (if target = "B" then "A" else "B")
  else ref

/-- `LLMAnalyzer.analyze_diff_block(diff_block)` (analyzer.py lines 24-90).
The external analysis call is abstracted as `callResult`: `Except.error ()`
when anything in the try block raises before the result fields are assigned
(API call unreachable, etc.), `Except.ok ar` when `_parse_llm_response`
returned the dict `ar`.  `genResult` abstracts the string returned by the
second-stage `_generate_mixed_code` call (whose own failures are caught
inside it and yield "").  On success the nine result fields are assigned
from the dict with the source's defaults, then the strategy branch runs:
a suggestion containing "保留 branchA" keeps branch A's reconstruction,
one containing "保留 branchB" keeps branch B's, and otherwise the
`mixed_code` from the analysis (always the default "" here, stripped and
checked against the placeholder echo) decides between `_generate_mixed_code`
and itself.  On failure the block gets the failure sentinels and is
returned without raising. -/
def analyze_diff_block (callResult : Except Unit (List (String × String)))
    (genResult : String) (block : DiffBlock) : DiffBlock :=
  match callResult with
  | Except.error _ =>
      { block with
        modification_type := some "分析失败",
        resolution_suggestion := some "请手动分析此差异",
        resolution_suggestion_reason := some "" }
  | Except.ok ar =>
      let b1 := { block with
        modification_type := some (dictGetStr ar "modification_type" "未知修改类型"),
        branchA_content := some (dictGetStr ar "branchA_content" ""),
        branchA_reason := some (dictGetStr ar "branchA_reason" ""),
        branchA_influence := some (dictGetStr ar "branchA_influence" ""),
        branchB_content := some (dictGetStr ar "branchB_content" ""),
        branchB_reason := some (dictGetStr ar "branchB_reason" ""),
        branchB_influence := some (dictGetStr ar "branchB_influence" ""),
        resolution_suggestion := some (dictGetStr ar "resolution_suggestion" "建议不可用"),
        resolution_suggestion_reason := some (dictGetStr ar "resolution_suggestion_reason" "") }
      let suggestion := dictGetStr ar "resolution_suggestion" "建议不可用"
      if pyIn "保留 branchA" suggestion then
        { b1 with mixed_code := some (get_original_code_of_branch b1.content "A") }
      else if pyIn "保留 branchB" suggestion then
        { b1 with mixed_code := some (get_original_code_of_branch b1.content "B") }
      else
        let mixed_from_analysis := pyStrip (dictGetStr ar "mixed_code" "")
        if mixed_from_analysis = "" || pyLower mixed_from_analysis = "mixed_code" then
          { b1 with mixed_code := some genResult }
        else
          { b1 with mixed_code := some mixed_from_analysis }

/-- The run-level loop of `CodeDiffAnalyzer.analyze_blocks` (main.py lines
71-88), restricted to its analysis effect (the periodic batch JSON dumps are
file output only): each block, in order, is replaced by
`analyze_diff_block(block)` and appended to `analyzed_blocks`.  The external
outcomes of the two model calls for the i-th block are supplied by the
oracles `ext` and `gen`. -/
def analyze_blocks (ext : Nat → Except Unit (List (String × String)))
    (gen : Nat → String) (blocks : List DiffBlock) : List DiffBlock :=
  blocks.enum.map (fun p => analyze_diff_block (ext p.1) (gen p.1) p.2)

example :
    get_original_code_of_branch (some "-old line\n+new line\n same line") "A" =
      "old line\nsame line" := by decide

example :
    get_original_code_of_branch (some "-old line\n+new line\n same line") "B" =
      "new line\nsame line" := by decide

example :
    get_original_code_of_branch (some "@@ -10,0 +10,2 @@\n+new line\n+more new") "A" = "" := by
  decide

example :
    generate_mixed_code_reference "branchA/branchB 融合"
      (some "@@ -10,0 +10,2 @@\n+new line\n+more new") = "new line\nmore new" := by decide

/-- The flattening loop of `DiffParser.parse_diff` (parser.py lines 80-83)
and of main.py lines 182-184: `blocks.extend(fr.diff_blocks)` over the file
reports in order. -/
def flattenBlocks : List FileReport → List DiffBlock
  | [] => []
  | fr :: rest => fr.diff_blocks ++ flattenBlocks rest

/-- Flushed or in-progress line fields are either both unset or an ordered pair. -/
def fieldsOk (a b : Option Nat) : Prop :=
  (a = none ∧ b = none) ∨ ∃ s e, a = some s ∧ b = some e ∧ s ≤ e

def dictFieldsOk (d : List (String × List PHunk)) : Prop :=
  ∀ p ∈ d, ∀ h ∈ p.2, fieldsOk h.start_line h.end_line

def dictValsNe (d : List (String × List PHunk)) : Prop :=
  ∀ p ∈ d, p.2 ≠ []

/-- The A-B hunk of the C4 scenario: one hunk for file.py. -/
def c4HunkAB : DiffHunk :=
  ⟨"file.py", 10, 12, "@@ -10,2 +10,3 @@\n def f():\n+    pass\n     return"⟩

/-- The diffB hunk of the C4 scenario, at target lines 10-13 (overlapping
the A-B hunk under the closed-interval test). -/
def c4HunkB : DiffHunk :=
  ⟨"file.py", 10, 13, "@@ -10,3 +10,4 @@\n def f():\n+    done = 1\n     return"⟩

/-- The single block the C4 scenario must produce: id 1, A-side sentinel
location (0,0) with absent content, B-side location (10,13) with diffB's
hunk text. -/
def c4Block : DiffBlock :=
  { id := some 1,
    file_path_branchA := some "file.py",
    file_path_branchB := some "file.py",
    location_branchA := some ⟨0, 0⟩,
    location_branchB := some ⟨10, 13⟩,
    branchA_content := none,
    branchB_content := some c4HunkB.content,
    diff_ab_content := some c4HunkAB.content,
    content := some c4HunkAB.content,
    diffA_raw := some "",
    diffB_raw := some c4HunkB.content }

/-! ## Parser lemmas -/

lemma matchLit_eq_append : ∀ (p cs r : List Char), matchLit p cs = some r → cs = p ++ r := by
  intro p
  induction p with
  | nil =>
      intro cs r h
      simp [matchLit] at h
      simp [h]
  | cons a ps ih =>
      intro cs r h
      cases cs with
      | nil => simp [matchLit] at h
      | cons c cs2 =>
          simp only [matchLit] at h
          by_cases hc : c = a
          · rw [if_pos hc] at h
            have := ih cs2 r h
            simp [hc, this]
          · rw [if_neg hc] at h
            exact absurd h (by simp)

lemma header_starts (cs : List Char) (v : Nat × Option Nat × Nat × Option Nat)
    (h : parseHunkHeaderList cs = some v) : ∃ r, cs = '@' :: '@' :: ' ' :: '-' :: r := by
  unfold parseHunkHeaderList at h
  cases hm : matchLit "@@ -".toList cs with
  | none => rw [hm] at h; exact absurd h (by simp)
  | some cs1 =>
      refine ⟨cs1, ?_⟩
      have := matchLit_eq_append _ _ _ hm
      simpa using this

lemma listPrefixOf_cons_ne (p c : Char) (ps cs : List Char) (h : ¬p = c) :
    listPrefixOf (p :: ps) (c :: cs) = false := by
  simp [listPrefixOf, h]

lemma header_startsWith_facts (line : String) (v : Nat × Option Nat × Nat × Option Nat)
    (h : parseHunkHeader line = some v) :
    pyStartsWith line "diff --git" = false ∧ pyStartsWith line "+++ " = false := by
  obtain ⟨r, hr⟩ := header_starts line.toList v h
  unfold pyStartsWith
  rw [hr]
  constructor
  · have hd : "diff --git".toList = 'd' :: "iff --git".toList := by decide
    rw [hd]
    exact listPrefixOf_cons_ne 'd' '@' _ _ (by decide)
  · have hp : "+++ ".toList = '+' :: "++ ".toList := by decide
    rw [hp]
    exact listPrefixOf_cons_ne '+' '@' _ _ (by decide)

lemma parseStep_header (st : ParseState) (line : String) (a : Nat) (b : Option Nat)
    (s : Nat) (l : Option Nat) (h : parseHunkHeader line = some (a, b, s, l)) :
    parseStep st line =
      { st with file_hunks := flushHunks st, hunk_start := some s,
                hunk_end := some (s + l.getD 1), current_hunk_lines := [line] } := by
  obtain ⟨h1, h2⟩ := header_startsWith_facts line _ h
  simp [parseStep, h1, h2, h]

lemma foldl_preserve {σ α : Type _} (I : σ → Prop) (f : σ → α → σ)
    (hstep : ∀ s a, I s → I (f s a)) :
    ∀ (l : List α) (s : σ), I s → I (l.foldl f s) := by
  intro l
  induction l with
  | nil => intro s hs; simpa using hs
  | cons a t ih =>
      intro s hs
      simpa using ih (f s a) (hstep s a hs)

lemma mem_appendHunk (d : List (String × List PHunk)) (key : String) (hnew : PHunk) :
    ∀ p ∈ appendHunk d key hnew, ∀ h ∈ p.2, (∃ q ∈ d, h ∈ q.2) ∨ h = hnew := by
  induction d with
  | nil =>
      intro p hp h hh
      simp [appendHunk] at hp
      subst hp
      simp at hh
      exact Or.inr hh
  | cons q rest ih =>
      obtain ⟨k, hs⟩ := q
      intro p hp h hh
      by_cases hk : k = key
      · simp only [appendHunk, if_pos hk] at hp
        rcases List.mem_cons.mp hp with hpe | hpr
        · subst hpe
          simp only at hh
          rcases List.mem_append.mp hh with hin | hnew2
          · exact Or.inl ⟨(k, hs), List.mem_cons_self _ _, hin⟩
          · simp at hnew2
            exact Or.inr hnew2
        · exact Or.inl ⟨p, List.mem_cons_of_mem _ hpr, hh⟩
      · simp only [appendHunk, if_neg hk] at hp
        rcases List.mem_cons.mp hp with hpe | hpr
        · subst hpe
          exact Or.inl ⟨(k, hs), List.mem_cons_self _ _, hh⟩
        · rcases ih p hpr h hh with ⟨q2, hq2, hq2m⟩ | he
          · exact Or.inl ⟨q2, List.mem_cons_of_mem _ hq2, hq2m⟩
          · exact Or.inr he

lemma appendHunk_valsNe (d : List (String × List PHunk)) (key : String) (hnew : PHunk)
    (h : dictValsNe d) : dictValsNe (appendHunk d key hnew) := by
  induction d with
  | nil =>
      intro p hp
      simp [appendHunk] at hp
      subst hp
      simp
  | cons q rest ih =>
      obtain ⟨k, hs⟩ := q
      intro p hp
      by_cases hk : k = key
      · simp only [appendHunk, if_pos hk] at hp
        rcases List.mem_cons.mp hp with hpe | hpr
        · subst hpe; simp
        · exact h p (List.mem_cons_of_mem _ hpr)
      · simp only [appendHunk, if_neg hk] at hp
        rcases List.mem_cons.mp hp with hpe | hpr
        · subst hpe
          exact h (k, hs) (List.mem_cons_self _ _)
        · exact ih (fun q hq => h q (List.mem_cons_of_mem _ hq)) p hpr

lemma flushHunks_fieldsOk (st : ParseState)
    (h1 : fieldsOk st.hunk_start st.hunk_end) (h2 : dictFieldsOk st.file_hunks) :
    dictFieldsOk (flushHunks st) := by
  unfold flushHunks
  cases hcf : st.current_file with
  | none => exact h2
  | some f =>
      by_cases hf : f = ""
      · simpa [hf] using h2
      · by_cases hl : st.current_hunk_lines = []
        · simpa [hf, hl] using h2
        · simp only [if_neg hf, if_neg hl]
          intro p hp h hh
          rcases mem_appendHunk _ _ _ p hp h hh with ⟨q, hq, hqm⟩ | he
          · exact h2 q hq h hqm
          · subst he
            simpa [fieldsOk] using h1

lemma flushHunks_valsNe (st : ParseState) (h : dictValsNe st.file_hunks) :
    dictValsNe (flushHunks st) := by
  unfold flushHunks
  cases hcf : st.current_file with
  | none => exact h
  | some f =>
      by_cases hf : f = ""
      · simpa [hf] using h
      · by_cases hl : st.current_hunk_lines = []
        · simpa [hf, hl] using h
        · simp only [if_neg hf, if_neg hl]
          exact appendHunk_valsNe _ _ _ h

lemma parseStep_fieldsInv (st : ParseState) (line : String)
    (h : fieldsOk st.hunk_start st.hunk_end ∧ dictFieldsOk st.file_hunks) :
    fieldsOk (parseStep st line).hunk_start (parseStep st line).hunk_end ∧
      dictFieldsOk (parseStep st line).file_hunks := by
  unfold parseStep
  split
  · exact ⟨h.1, flushHunks_fieldsOk st h.1 h.2⟩
  · split
    · exact ⟨h.1, h.2⟩
    · split
      · refine ⟨Or.inr ⟨_, _, rfl, rfl, Nat.le_add_right _ _⟩, flushHunks_fieldsOk st h.1 h.2⟩
      · split
        · exact ⟨h.1, h.2⟩
        · exact ⟨h.1, h.2⟩

lemma parseStep_valsInv (st : ParseState) (line : String)
    (h : dictValsNe st.file_hunks) : dictValsNe (parseStep st line).file_hunks := by
  unfold parseStep
  split
  · exact flushHunks_valsNe st h
  · split
    · exact h
    · split
      · exact flushHunks_valsNe st h
      · split
        · exact h
        · exact h

/-! ## Claims about the unified-diff reader -/

/-- C3: for every hunk header line matched by `HUNK_PATTERN` with target-side
start `s` and optional target-side length `l`, the hunk opened by
`_parse_diff_lines` records start line `s`, and end line `s + l` when the
length is present and `s + 1` when it is omitted. -/
theorem C3_header_opens_target_range (st : ParseState) (line : String) (a : Nat)
    (b : Option Nat) (s : Nat) (l : Option Nat)
    (h : parseHunkHeader line = some (a, b, s, l)) :
    (parseStep st line).hunk_start = some s ∧
    (∀ n, l = some n → (parseStep st line).hunk_end = some (s + n)) ∧
    (l = none → (parseStep st line).hunk_end = some (s + 1)) := by
  rw [parseStep_header st line a b s l h]
  refine ⟨rfl, ?_, ?_⟩
  · intro n hn
    simp [hn]
  · intro hn
    simp [hn]

theorem C3_header_opens_target_range_witness :
    parseHunkHeader "@@ -1,2 +10,3 @@\n" = some (1, some 2, 10, some 3) ∧
    (parseStep initState "@@ -1,2 +10,3 @@\n").hunk_start = some 10 ∧
    (parseStep initState "@@ -1,2 +10,3 @@\n").hunk_end = some 13 := by
  have h : parseHunkHeader "@@ -1,2 +10,3 @@\n" = some (1, some 2, 10, some 3) := by decide
  have := C3_header_opens_target_range initState "@@ -1,2 +10,3 @@\n" 1 (some 2) 10 (some 3) h
  exact ⟨h, this.1, this.2.1 3 rfl⟩

/-- C2 fails on the code: the parser sets `hunk_end = hunk_start + length`,
so for the header `@@ -10,2 +10,3 @@` (declared target length 3) the
produced hunk has `end_line - start_line + 1 = 13 - 10 + 1 = 4`, not 3. -/
theorem C2_counterexample :
    parse_diff_lines ["+++ f\n", "@@ -10,2 +10,3 @@\n", " x\n"] =
      [("f", [⟨"f", some 10, some 13, "@@ -10,2 +10,3 @@\n x\n"⟩])] ∧
    ¬((⟨"f", some 10, some 13, "@@ -10,2 +10,3 @@\n x\n"⟩ : PHunk).end_line.getD 0 -
        (⟨"f", some 10, some 13, "@@ -10,2 +10,3 @@\n x\n"⟩ : PHunk).start_line.getD 0 + 1 = 3) := by
  constructor
  · decide
  · decide

/-- C2 amended: for a hunk opened from a header with target start `s` and
optional target length `l`, the recorded range satisfies
`end_line - start_line = l` (or 1 when the length is omitted) — without the
`+ 1` of the original claim — and `start_line = s`. -/
theorem C2_header_range_difference (st : ParseState) (line : String) (a : Nat)
    (b : Option Nat) (s : Nat) (l : Option Nat)
    (h : parseHunkHeader line = some (a, b, s, l)) :
    (parseStep st line).hunk_start = some s ∧
    ∃ e, (parseStep st line).hunk_end = some e ∧ e - s = l.getD 1 := by
  rw [parseStep_header st line a b s l h]
  exact ⟨rfl, s + l.getD 1, rfl, by omega⟩

theorem C2_header_range_difference_witness :
    (parseStep initState "@@ -1 +5 @@\n").hunk_start = some 5 ∧
    ∃ e, (parseStep initState "@@ -1 +5 @@\n").hunk_end = some e ∧
      e - 5 = (Option.getD (none : Option Nat) 1) := by
  exact C2_header_range_difference initState "@@ -1 +5 @@\n" 1 none 5 none (by decide)

/-- C8 fails on the code: body lines that follow a `+++ ` file header with no
hunk header are flushed as a hunk whose raw content does not begin with a
line matching `HUNK_PATTERN` (and whose line fields are still Python None). -/
theorem C8_counterexample :
    parse_diff_lines ["+++ f\n", "xyz\n"] = [("f", [⟨"f", none, none, "xyz\n"⟩])] ∧
    parseHunkHeader "xyz\n" = none := by
  constructor
  · decide
  · decide

/-- C8 amended: every `DiffHunk` in the mapping returned by
`_parse_diff_lines` either has both line fields unset (Python None, possible
for body lines never preceded by a hunk header) or satisfies
`start_line <= end_line`; the raw content is not guaranteed to begin with a
hunk-header line in the unset/stale case. -/
theorem C8_line_fields_ordered (lines : List String) (f : String) (hs : List PHunk)
    (h : PHunk) (h1 : (f, hs) ∈ parse_diff_lines lines) (h2 : h ∈ hs) :
    (h.start_line = none ∧ h.end_line = none) ∨
      ∃ s e, h.start_line = some s ∧ h.end_line = some e ∧ s ≤ e := by
  have hinv :
      fieldsOk (lines.foldl parseStep initState).hunk_start
          (lines.foldl parseStep initState).hunk_end ∧
        dictFieldsOk (lines.foldl parseStep initState).file_hunks := by
    refine foldl_preserve
      (fun st => fieldsOk st.hunk_start st.hunk_end ∧ dictFieldsOk st.file_hunks)
      parseStep (fun st line hst => parseStep_fieldsInv st line hst) lines initState ?_
    exact ⟨Or.inl ⟨rfl, rfl⟩, by intro p hp; simp [initState] at hp⟩
  have hd : dictFieldsOk (parse_diff_lines lines) :=
    flushHunks_fieldsOk _ hinv.1 hinv.2
  exact hd (f, hs) h1 h h2

theorem C8_line_fields_ordered_witness :
    ((⟨"f", some 3, some 7, "@@ -1,2 +3,4 @@\n"⟩ : PHunk).start_line = none ∧
        (⟨"f", some 3, some 7, "@@ -1,2 +3,4 @@\n"⟩ : PHunk).end_line = none) ∨
      ∃ s e, (⟨"f", some 3, some 7, "@@ -1,2 +3,4 @@\n"⟩ : PHunk).start_line = some s ∧
        (⟨"f", some 3, some 7, "@@ -1,2 +3,4 @@\n"⟩ : PHunk).end_line = some e ∧ s ≤ e := by
  exact C8_line_fields_ordered ["+++ f\n", "@@ -1,2 +3,4 @@\n"] "f"
    [⟨"f", some 3, some 7, "@@ -1,2 +3,4 @@\n"⟩]
    ⟨"f", some 3, some 7, "@@ -1,2 +3,4 @@\n"⟩ (by decide) (by decide)

/-- C10: the mapping returned by `_parse_diff_lines` never maps a file path
to an empty hunk list (keys are created only by flushing a hunk), and in
particular a `+++ ` header followed by nothing contributes no key at all. -/
theorem C10_no_empty_hunk_list :
    (∀ (lines : List String) (f : String) (hs : List PHunk),
        (f, hs) ∈ parse_diff_lines lines → hs ≠ []) ∧
    parse_diff_lines ["+++ f\n"] = [] := by
  constructor
  · intro lines f hs h1
    have hinv : dictValsNe (lines.foldl parseStep initState).file_hunks := by
      refine foldl_preserve (fun st => dictValsNe st.file_hunks) parseStep
        (fun st line hst => parseStep_valsInv st line hst) lines initState ?_
      intro p hp
      simp [initState] at hp
    exact flushHunks_valsNe _ hinv (f, hs) h1
  · decide

theorem C10_no_empty_hunk_list_witness :
    ([(⟨"f", some 10, some 13, "@@ -1,2 +10,3 @@\n x\n"⟩ : PHunk)] : List PHunk) ≠ [] := by
  exact C10_no_empty_hunk_list.1 ["+++ f\n", "@@ -1,2 +10,3 @@\n", " x\n"] "f"
    [⟨"f", some 10, some 13, "@@ -1,2 +10,3 @@\n x\n"⟩] (by decide)

/-! ## Builder lemmas -/

lemma buildFileBlocks_length (dA dB : List (String × List DiffHunk)) (f : String) :
    ∀ (hs : List DiffHunk) (bid : Int),
      (buildFileBlocks dA dB f hs bid).1.length = hs.length ∧
      (buildFileBlocks dA dB f hs bid).2 = bid + hs.length := by
  intro hs
  induction hs with
  | nil => intro bid; simp [buildFileBlocks]
  | cons h t ih =>
      intro bid
      simp only [buildFileBlocks, List.length_cons]
      refine ⟨by rw [(ih (bid + 1)).1], ?_⟩
      rw [(ih (bid + 1)).2]
      push_cast
      ring

lemma buildFileBlocks_ids (dA dB : List (String × List DiffHunk)) (f : String) :
    ∀ (hs : List DiffHunk) (bid : Int),
      (buildFileBlocks dA dB f hs bid).1.map (fun b => b.id) =
        (List.range hs.length).map (fun (k : Nat) => some (bid + (k : Int))) := by
  intro hs
  induction hs with
  | nil => intro bid; simp [buildFileBlocks]
  | cons h t ih =>
      intro bid
      simp only [buildFileBlocks, List.map_cons]
      rw [ih (bid + 1), List.length_cons, List.range_succ_eq_map, List.map_cons, List.map_map]
      have hfun : ((fun (k : Nat) => some (bid + (k : Int))) ∘ Nat.succ) =
          fun (k : Nat) => some (bid + 1 + (k : Int)) := by
        funext k
        simp only [Function.comp_apply, Option.some.injEq]
        push_cast
        ring
      rw [hfun]
      congr 1
      simp [mkBlock]

lemma range_map_append (bid : Int) (n m : Nat) :
    (List.range n).map (fun (k : Nat) => some (bid + (k : Int))) ++
      (List.range m).map (fun (k : Nat) => some (bid + (n : Int) + (k : Int))) =
      (List.range (n + m)).map (fun (k : Nat) => some (bid + (k : Int))) := by
  induction m with
  | zero => simp
  | succ m ih =>
      have h1 : n + (m + 1) = (n + m) + 1 := by omega
      rw [List.range_succ, List.map_append, ← List.append_assoc, ih, h1, List.range_succ,
        List.map_append]
      simp only [List.map_cons, List.map_nil, List.append_cancel_left_eq, List.cons.injEq,
        Option.some.injEq, and_true]
      push_cast
      ring

lemma build_aux_ids (dA dB : List (String × List DiffHunk)) :
    ∀ (l : List (String × List DiffHunk)) (bid : Int),
      (flattenBlocks (build_diff_blocks_aux dA dB l bid)).map (fun b => b.id) =
        (List.range ((l.map (fun p => p.2.length)).sum)).map (fun (k : Nat) => some (bid + (k : Int))) := by
  intro l
  induction l with
  | nil => intro bid; simp [build_diff_blocks_aux, flattenBlocks]
  | cons p rest ih =>
      obtain ⟨f, hs⟩ := p
      intro bid
      simp only [build_diff_blocks_aux, flattenBlocks, List.map_append, List.map_cons,
        List.sum_cons]
      rw [buildFileBlocks_ids dA dB f hs bid, ih ((buildFileBlocks dA dB f hs bid).2),
        (buildFileBlocks_length dA dB f hs bid).2]
      exact range_map_append bid hs.length ((rest.map (fun p => p.2.length)).sum)

lemma build_aux_shape (dA dB : List (String × List DiffHunk)) :
    ∀ (l : List (String × List DiffHunk)) (bid : Int),
      (build_diff_blocks_aux dA dB l bid).map (fun fr => (fr.file_path, fr.diff_blocks.length)) =
        l.map (fun p => (p.1, p.2.length)) := by
  intro l
  induction l with
  | nil => intro bid; simp [build_diff_blocks_aux]
  | cons p rest ih =>
      obtain ⟨f, hs⟩ := p
      intro bid
      simp only [build_diff_blocks_aux, List.map_cons]
      rw [ih ((buildFileBlocks dA dB f hs bid).2)]
      simp [(buildFileBlocks_length dA dB f hs bid).1]

lemma mem_buildFileBlocks (dA dB : List (String × List DiffHunk)) (f : String) :
    ∀ (hs : List DiffHunk) (bid : Int) (b : DiffBlock),
      b ∈ (buildFileBlocks dA dB f hs bid).1 →
      ∃ hAB, hAB ∈ hs ∧ ∃ bid2 : Int,
        b = mkBlock (find_matching_hunk (dictGetHunks dA f) hAB)
            (find_matching_hunk (dictGetHunks dB f) hAB) f hAB bid2 := by
  intro hs
  induction hs with
  | nil => intro bid b hb; simp [buildFileBlocks] at hb
  | cons h t ih =>
      intro bid b hb
      simp only [buildFileBlocks] at hb
      rcases List.mem_cons.mp hb with hbe | hbr
      · exact ⟨h, List.mem_cons_self _ _, bid, hbe⟩
      · obtain ⟨hAB, hmem, bid2, heq⟩ := ih (bid + 1) b hbr
        exact ⟨hAB, List.mem_cons_of_mem _ hmem, bid2, heq⟩

lemma mem_build_aux (dA dB : List (String × List DiffHunk)) :
    ∀ (l : List (String × List DiffHunk)) (bid : Int) (fr : FileReport),
      fr ∈ build_diff_blocks_aux dA dB l bid →
      ∃ hs, ∃ bid2 : Int, fr.diff_blocks = (buildFileBlocks dA dB fr.file_path hs bid2).1 := by
  intro l
  induction l with
  | nil => intro bid fr hfr; simp [build_diff_blocks_aux] at hfr
  | cons p rest ih =>
      obtain ⟨f, hs⟩ := p
      intro bid fr hfr
      simp only [build_diff_blocks_aux] at hfr
      rcases List.mem_cons.mp hfr with hfe | hfr2
      · subst hfe
        exact ⟨hs, bid, rfl⟩
      · exact ih _ fr hfr2

lemma mkBlock_missA (mB : Option DiffHunk) (f : String) (hAB : DiffHunk) (bid : Int) :
    (mkBlock none mB f hAB bid).location_branchA = some ⟨0, 0⟩ ∧
    (mkBlock none mB f hAB bid).branchA_content = none ∧
    (mkBlock none mB f hAB bid).diffA_raw = some "" := by
  simp [mkBlock]

lemma mkBlock_missB (mA : Option DiffHunk) (f : String) (hAB : DiffHunk) (bid : Int) :
    (mkBlock mA none f hAB bid).location_branchB = some ⟨0, 0⟩ ∧
    (mkBlock mA none f hAB bid).branchB_content = none ∧
    (mkBlock mA none f hAB bid).diffB_raw = some "" := by
  simp [mkBlock]

/-! ## Claims about the conflict block builder -/

/-- C1: the flattened block sequence of `build_diff_blocks(diffA, diffB,
diffAB)` has exactly one block per A-B hunk — its length is the total hunk
count of `diffAB`, for every `diffA` and `diffB` — and the block identifiers
are 1, 2, ..., N in output order. -/
theorem C1_one_block_per_ab_hunk (dA dB dAB : List (String × List DiffHunk)) :
    (flattenBlocks (build_diff_blocks dA dB dAB)).length =
      (dAB.map (fun p => p.2.length)).sum ∧
    (flattenBlocks (build_diff_blocks dA dB dAB)).map (fun b => b.id) =
      (List.range ((dAB.map (fun p => p.2.length)).sum)).map
        (fun (k : Nat) => some ((k : Int) + 1)) := by
  have hids := build_aux_ids dA dB dAB 1
  have hcomm : (fun (k : Nat) => some ((1 : Int) + (k : Int))) =
      fun (k : Nat) => some ((k : Int) + 1) := by
    funext k
    rw [add_comm]
  constructor
  · have hlen := congrArg List.length hids
    simpa using hlen
  · rw [build_diff_blocks, hids, hcomm]

/-- C9 fails on the code: `build_diff_blocks` appends a `FileReport` for
every file of `diffAB` unconditionally, so a file whose A-B hunk list is
empty still appears in the returned sequence (with an empty block list). -/
theorem C9_counterexample :
    build_diff_blocks [] [] [("file.py", [])] = [⟨"file.py", []⟩] ∧
    "file.py" ∈ (build_diff_blocks [] [] [("file.py", [])]).map (fun fr => fr.file_path) := by
  constructor
  · decide
  · decide

/-- C9 amended: a file with zero A-B hunks contributes zero conflict blocks,
but it is not omitted: the returned sequence has one `FileReport` per
`diffAB` entry, in order, with block counts equal to the hunk counts
(an empty `FileReport` for an empty hunk list). -/
theorem C9_file_reports_mirror_diffAB (dA dB dAB : List (String × List DiffHunk)) :
    (build_diff_blocks dA dB dAB).map (fun fr => (fr.file_path, fr.diff_blocks.length)) =
      dAB.map (fun p => (p.1, p.2.length)) :=
  build_aux_shape dA dB dAB 1

/-- C4: every block produced by `build_diff_blocks` is built from some A-B
hunk by `mkBlock` applied to the `_find_matching_hunk` correlations (which
return the first overlapping candidate in sequence order, or `None`), and
whenever the A-side (resp. B-side) correlation misses, the block carries the
`(0,0)` sentinel location and absent content on that side; in the concrete
scenario — a diffAB hunk for file.py, no diffA hunks, one overlapping diffB
hunk at lines 10-13 — the single output block is exactly `c4Block`. -/
theorem C4_miss_yields_zero_sentinel :
    (∀ (dA dB dAB : List (String × List DiffHunk)) (fr : FileReport) (b : DiffBlock),
        fr ∈ build_diff_blocks dA dB dAB → b ∈ fr.diff_blocks →
        ∃ hAB, ∃ bid2 : Int,
          b = mkBlock (find_matching_hunk (dictGetHunks dA fr.file_path) hAB)
              (find_matching_hunk (dictGetHunks dB fr.file_path) hAB) fr.file_path hAB bid2 ∧
          (find_matching_hunk (dictGetHunks dA fr.file_path) hAB = none →
            b.location_branchA = some ⟨0, 0⟩ ∧ b.branchA_content = none ∧
              b.diffA_raw = some "") ∧
          (find_matching_hunk (dictGetHunks dB fr.file_path) hAB = none →
            b.location_branchB = some ⟨0, 0⟩ ∧ b.branchB_content = none ∧
              b.diffB_raw = some "")) ∧
    build_diff_blocks [] [("file.py", [c4HunkB])] [("file.py", [c4HunkAB])] =
      [⟨"file.py", [c4Block]⟩] := by
  constructor
  · intro dA dB dAB fr b hfr hb
    obtain ⟨hs, bid2, hblocks⟩ := mem_build_aux dA dB dAB 1 fr hfr
    rw [hblocks] at hb
    obtain ⟨hAB, _hmem, bid3, heq⟩ := mem_buildFileBlocks dA dB fr.file_path hs bid2 b hb
    refine ⟨hAB, bid3, heq, ?_, ?_⟩
    · intro hnone
      rw [heq, hnone]
      exact mkBlock_missA _ _ _ _
    · intro hnone
      rw [heq, hnone]
      exact mkBlock_missB _ _ _ _
  · decide

theorem C4_miss_yields_zero_sentinel_witness :
    ∃ hAB, ∃ bid2 : Int,
      c4Block = mkBlock (find_matching_hunk (dictGetHunks [] "file.py") hAB)
          (find_matching_hunk (dictGetHunks [("file.py", [c4HunkB])] "file.py") hAB)
          "file.py" hAB bid2 ∧
      (find_matching_hunk (dictGetHunks [] "file.py") hAB = none →
        c4Block.location_branchA = some ⟨0, 0⟩ ∧ c4Block.branchA_content = none ∧
          c4Block.diffA_raw = some "") ∧
      (find_matching_hunk (dictGetHunks [("file.py", [c4HunkB])] "file.py") hAB = none →
        c4Block.location_branchB = some ⟨0, 0⟩ ∧ c4Block.branchB_content = none ∧
          c4Block.diffB_raw = some "") := by
  exact C4_miss_yields_zero_sentinel.1 [] [("file.py", [c4HunkB])] [("file.py", [c4HunkAB])]
    ⟨"file.py", [c4Block]⟩ c4Block (by decide) (by decide)

/-! ## Reconstruction lemmas -/

lemma branch_code_lines_A (ls : List String) :
    branch_code_lines "A" ls =
      (ls.filter (fun l =>
          !(l = "") && !(pyStartsWith l "@@") &&
            (pyFirstChar l = '-' || pyFirstChar l = ' '))).map (fun l => pySliceFrom l 1) := by
  induction ls with
  | nil => rfl
  | cons l rest ih =>
      by_cases h1 : l = ""
      · simp [branch_code_lines, h1, ih]
      · by_cases h2 : pyStartsWith l "@@" = true
        · simp [branch_code_lines, h1, h2, ih]
        · by_cases h3 : pyFirstChar l = '-'
          · simp [branch_code_lines, h1, h2, h3, ih]
          · by_cases h4 : pyFirstChar l = ' '
            · simp [branch_code_lines, h1, h2, h3, h4, ih]
            · simp [branch_code_lines, h1, h2, h3, h4, ih]

lemma branch_code_lines_B (ls : List String) :
    branch_code_lines "B" ls =
      (ls.filter (fun l =>
          !(l = "") && !(pyStartsWith l "@@") &&
            (pyFirstChar l = '+' || pyFirstChar l = ' '))).map (fun l => pySliceFrom l 1) := by
  induction ls with
  | nil => rfl
  | cons l rest ih =>
      by_cases h1 : l = ""
      · simp [branch_code_lines, h1, ih]
      · by_cases h2 : pyStartsWith l "@@" = true
        · simp [branch_code_lines, h1, h2, ih]
        · by_cases h3 : pyFirstChar l = '+'
          · simp [branch_code_lines, h1, h2, h3, ih]
          · by_cases h4 : pyFirstChar l = ' '
            · simp [branch_code_lines, h1, h2, h3, h4, ih]
            · simp [branch_code_lines, h1, h2, h3, h4, ih]

/-! ## Claims about reconstruction and the analysis stage -/

/-- C5: `_get_original_code_of_branch` computes exactly the specification's
reconstruction — split into lines, drop empty and `@@` lines, keep the lines
whose marker is the side's own marker or a space with the marker stripped,
rejoin with newlines in order; the spec's concrete scenario holds, and every
kept side-A line is the content of some `-` or space line of the input (so a
line marked only `+` never reaches side A). -/
theorem C5_reconstruction_filters_markers :
    (∀ text : String,
        get_original_code_of_branch (some text) "A" = reconstruct_spec true text) ∧
    (∀ text : String,
        get_original_code_of_branch (some text) "B" = reconstruct_spec false text) ∧
    get_original_code_of_branch (some "-old line\n+new line\n same line") "A" =
      "old line\nsame line" ∧
    get_original_code_of_branch (some "-old line\n+new line\n same line") "B" =
      "new line\nsame line" ∧
    (∀ (text : String) (c : String), c ∈ branch_code_lines "A" (pysplitlines text) →
        ∃ l, l ∈ pysplitlines text ∧ (pyFirstChar l = '-' ∨ pyFirstChar l = ' ') ∧
          c = pySliceFrom l 1) := by
  refine ⟨?_, ?_, by decide, by decide, ?_⟩
  · intro text
    by_cases ht : text = ""
    · subst ht
      decide
    · simp only [get_original_code_of_branch, if_neg ht, reconstruct_spec]
      rw [branch_code_lines_A]
      simp
  · intro text
    by_cases ht : text = ""
    · subst ht
      decide
    · simp only [get_original_code_of_branch, if_neg ht, reconstruct_spec]
      rw [branch_code_lines_B]
      simp
  · intro text c hc
    rw [branch_code_lines_A] at hc
    obtain ⟨l, hl, hls⟩ := List.mem_map.mp hc
    have hf := List.mem_filter.mp hl
    have hcond := hf.2
    simp only [Bool.and_eq_true, Bool.or_eq_true, Bool.not_eq_true', decide_eq_true_eq,
      decide_eq_false_iff_not] at hcond
    exact ⟨l, hf.1, hcond.2, hls.symm⟩

theorem C5_reconstruction_filters_markers_witness :
    ∃ l, l ∈ pysplitlines "-kept\n+dropped" ∧
      (pyFirstChar l = '-' ∨ pyFirstChar l = ' ') ∧ "kept" = pySliceFrom l 1 := by
  exact C5_reconstruction_filters_markers.2.2.2.2 "-kept\n+dropped" "kept" (by decide)

/-- C6 fails on the code: on the keep-branch-A resolution path,
`analyze_diff_block` assigns the side-A reconstruction to `mixed_code`
directly; for a pure-insertion hunk that reconstruction is the empty string
and no fallback to side B happens (the B side is nonempty). -/
theorem C6_counterexample :
    (analyze_diff_block (Except.ok [("resolution_suggestion", "保留 branchA 代码")]) ""
        { content := some "@@ -10,0 +10,2 @@\n+new line\n+more new" }).mixed_code =
      some "" ∧
    get_original_code_of_branch (some "@@ -10,0 +10,2 @@\n+new line\n+more new") "B" =
      "new line\nmore new" ∧
    ¬("new line\nmore new" = "") := by
  refine ⟨by decide, by decide, by decide⟩

/-- C6 amended: the empty-reconstruction fallback to the other side exists
only on the fused-suggestion style-reference path (the `reference_code`
computation inside `_generate_mixed_code`); the keep-branch-A and
keep-branch-B resolution paths of `analyze_diff_block` assign the requested
side's reconstruction to `mixed_code` directly, even when it is empty. -/
theorem C6_fallback_only_in_style_reference :
    (∀ (sug : String) (raw : Option String),
        pyStrip (extract_raw_code_from_diff raw (style_target_branch (pyStrip sug))) = "" →
        generate_mixed_code_reference sug raw =
          extract_raw_code_from_diff raw
            (if style_target_branch (pyStrip sug) = "B" then "A" else "B")) ∧
    (∀ (ar : List (String × String)) (gen : String) (block : DiffBlock),
        pyIn "保留 branchA" (dictGetStr ar "resolution_suggestion" "建议不可用") = true →
        (analyze_diff_block (Except.ok ar) gen block).mixed_code =
          some (get_original_code_of_branch block.content "A")) ∧
    (∀ (ar : List (String × String)) (gen : String) (block : DiffBlock),
        pyIn "保留 branchA" (dictGetStr ar "resolution_suggestion" "建议不可用") = false →
        pyIn "保留 branchB" (dictGetStr ar "resolution_suggestion" "建议不可用") = true →
        (analyze_diff_block (Except.ok ar) gen block).mixed_code =
          some (get_original_code_of_branch block.content "B")) := by
  refine ⟨?_, ?_, ?_⟩
  · intro sug raw h
    simp only [generate_mixed_code_reference]
    rw [if_pos h]
  · intro ar gen block h
    simp only [analyze_diff_block]
    rw [if_pos h]
  · intro ar gen block h1 h2
    simp only [analyze_diff_block]
    rw [if_neg (by simp [h1]), if_pos h2]

theorem C6_fallback_only_in_style_reference_witness :
    generate_mixed_code_reference "branchA/branchB 融合"
        (some "@@ -10,0 +10,2 @@\n+new line\n+more new") =
      extract_raw_code_from_diff (some "@@ -10,0 +10,2 @@\n+new line\n+more new")
        (if style_target_branch (pyStrip "branchA/branchB 融合") = "B" then "A" else "B") := by
  exact C6_fallback_only_in_style_reference.1 "branchA/branchB 融合"
    (some "@@ -10,0 +10,2 @@\n+new line\n+more new") (by decide)

/-- C7: when the external analysis call raises, `analyze_diff_block` returns
the same block with the "分析失败" category sentinel and the
"请手动分析此差异" resolution sentinel (and no other change), without
raising; and the run-level loop of `analyze_blocks` processes every block
independently — the i-th output is always `analyze_diff_block` of the i-th
input, and the output length equals the input length, whatever the per-block
outcomes are. -/
theorem C7_failure_sentinels_isolated :
    (∀ (gen : String) (block : DiffBlock),
        analyze_diff_block (Except.error ()) gen block =
          { block with
            modification_type := some "分析失败",
            resolution_suggestion := some "请手动分析此差异",
            resolution_suggestion_reason := some "" }) ∧
    (∀ (ext : Nat → Except Unit (List (String × String))) (gen : Nat → String)
        (blocks : List DiffBlock) (i : Nat) (b : DiffBlock),
        blocks[i]? = some b →
        (analyze_blocks ext gen blocks)[i]? =
          some (analyze_diff_block (ext i) (gen i) b)) ∧
    (∀ (ext : Nat → Except Unit (List (String × String))) (gen : Nat → String)
        (blocks : List DiffBlock),
        (analyze_blocks ext gen blocks).length = blocks.length) := by
  refine ⟨?_, ?_, ?_⟩
  · intro gen block
    rfl
  · intro ext gen blocks i b hb
    simp [analyze_blocks, List.getElem?_map, List.getElem?_enum, hb]
  · intro ext gen blocks
    simp [analyze_blocks]

theorem C7_failure_sentinels_isolated_witness :
    analyze_diff_block (Except.error ()) "" ({ } : DiffBlock) =
      { ({ } : DiffBlock) with
        modification_type := some "分析失败",
        resolution_suggestion := some "请手动分析此差异",
        resolution_suggestion_reason := some "" } ∧
    (analyze_blocks (fun _ => Except.error ()) (fun _ => "") [({ } : DiffBlock)])[0]? =
      some (analyze_diff_block (Except.error ()) "" ({ } : DiffBlock)) := by
  exact ⟨C7_failure_sentinels_isolated.1 "" { },
    C7_failure_sentinels_isolated.2.1 (fun _ => Except.error ()) (fun _ => "")
      [({ } : DiffBlock)] 0 { } (by decide)⟩
